import Mathlib

/-!
Shallow embedding of the witness-table construction layer of the zkevm-circuits
repository (src/zkevm-circuits/src/evm_circuit.rs) and of the keccak absorb step
(src/keccak256/src/permutation/absorb.rs), together with theorems settling the
frozen claims about them.

The circuit backend's `Region` is modelled as the list of (offset, row)
assignments a loader performs, in the order it performs them; a fatal outcome
(a failed `assert!`, a panicking `unwrap`, a `zip_eq` length mismatch, or an
`Err` returned from an assignment closure) is modelled as `Option.none`.
-/

namespace ZkEvm

/-- One cell-row assignment into a region: the tuple of field elements written
across the table's columns at a given row offset. -/
structure Assignment (F : Type) where
  offset : ℕ
  row : List F
  deriving DecidableEq, Repr

/-- Assign the given rows at consecutive offsets starting at `off`, checking
(as `Itertools::zip_eq` does when a row is zipped with the table's columns)
that every row has exactly the table's width `w`; a mismatch is fatal. -/
def assignRows (F : Type) (w : ℕ) : ℕ → List (List F) → Option (List (Assignment F))
  | _, [] => some []
  | off, row :: rest =>
    if row.length = w then
      (assignRows F w (off + 1) rest).map (fun l => ⟨off, row⟩ :: l)
    else
      none

/-- Assign the given rows at consecutive offsets starting at `off`, without a
width check (the rw table rows are written field-by-field by `RwTable::assign`,
not zipped against a column list). -/
def enumFrom (F : Type) : ℕ → List (List F) → List (Assignment F)
  | _, [] => []
  | off, row :: rest => ⟨off, row⟩ :: enumFrom F (off + 1) rest

/-- Modelled from the spec: the RLC encoder `rlc(seq, r)` of 4.2, computing
`seq[0] + seq[1]*r + seq[2]*r^2 + ...` in Horner form, low-index-first.  The
source's `rlc::value` helper is outside the provided sources; the spec defines
it by this polynomial. -/
def rlc_value (F : Type) [CommRing F] : List F → F → F
  | [], _ => 0
  | v :: vs, r => v + rlc_value F vs r * r

/-- Modelled from the spec: `RandomLinearCombination::random_linear_combine`
collapses a byte sequence with the shared challenge exactly as the RLC encoder
does (4.2); the helper itself is outside the provided sources. -/
def random_linear_combine (F : Type) [CommRing F] (bytes : List F) (r : F) : F :=
  rlc_value F bytes r

/-- Modelled from the spec: `Word::from_big_endian(bytes).to_le_bytes()` for a
(at most 32 byte) big-endian byte string: the bytes reversed, padded with zero
bytes up to the 32-byte word width.  The word type is outside the provided
sources; the spec fixes the digest to a 32-byte big-endian value. -/
def word_to_le_bytes (bytes : List ℕ) : List ℕ :=
  bytes.reverse ++ List.replicate (32 - bytes.length) 0

/-- The keccak table expansion of one input byte slice
(`keccak_table_assignments` in evm_circuit.rs).  The digest function
(`keccak256::plain::Keccak`, outside the provided sources) is a parameter. -/
def keccak_table_assignments (F : Type) [CommRing F] (dig : List ℕ → List ℕ)
    (input : List ℕ) (randomness : F) : List (List F) :=
  let input_rlc : F := rlc_value F ((input.reverse).map (fun b : ℕ => (b : F))) randomness
  let input_len : F := (input.length : F)
  let output := dig input
  let output_rlc : F :=
    random_linear_combine F ((word_to_le_bytes output).map (fun b : ℕ => (b : F))) randomness
  [[1, input_rlc, input_len, output_rlc]]

/-- `load_txs`: zero sentinel row at offset 0, then every transaction's own
table rows (its `table_assignments`, called with the shared challenge) at
consecutive offsets, in the caller-supplied transaction order.  `w` is the
number of columns of the tx table. -/
def load_txs (F : Type) [CommRing F] (Tx : Type) (w : ℕ)
    (table_assignments : Tx → F → List (List F)) (txs : List Tx) (randomness : F) :
    Option (List (Assignment F)) :=
  (assignRows F w 1 (txs.flatMap (fun tx => table_assignments tx randomness))).map
    (fun l => ⟨0, List.replicate w 0⟩ :: l)

/-- The ascending-rw-counter comparison `sort_by_key(|a| a.rw_counter())` sorts
by. -/
def rwLe {Rw : Type} (rw_counter : Rw → ℕ) (a b : Rw) : Prop :=
  rw_counter a ≤ rw_counter b

instance rwLe_decidable {Rw : Type} (rw_counter : Rw → ℕ) : DecidableRel (rwLe rw_counter) :=
  fun a b => inferInstanceAs (Decidable (rw_counter a ≤ rw_counter b))

/-- The expected-counter scan of `load_rws`: starting from `expected`, assert
that each record's counter equals the expected value, incrementing it per
record; any mismatch is fatal. -/
def checkFrom {Rw : Type} (rw_counter : Rw → ℕ) : ℕ → List Rw → Bool
  | _, [] => true
  | expected, r :: rest => rw_counter r == expected && checkFrom rw_counter (expected + 1) rest

/-- `load_rws`: zero sentinel row at offset 0 (the `Default` rw table row,
all-zero per the spec's sentinel invariant; `RwTable::assign` is outside the
provided sources), then the records of all groups of the rw map, sorted by
ascending rw counter and checked against the expected counters 1, 2, 3, …; a
counter mismatch aborts.  Sorting is modelled by Mathlib's stable
`insertionSort`; it agrees with the source's stable `sort_by_key` on every
input whose construction succeeds, since success forces all counters distinct. -/
def load_rws (F : Type) [CommRing F] (Rw : Type) (w : ℕ) (rw_counter : Rw → ℕ)
    (table_assignment : Rw → F → List F) (rws : List (List Rw)) (randomness : F) :
    Option (List (Assignment F)) :=
  let rows := rws.flatMap id
  let sorted := List.insertionSort (rwLe rw_counter) rows
  if checkFrom rw_counter 1 sorted then
    some (⟨0, List.replicate w 0⟩ ::
      enumFrom F 1 (sorted.map (fun r => table_assignment r randomness)))
  else
    none

/-- `load_bytecodes`: zero sentinel row at offset 0, then every bytecode's own
table rows at consecutive offsets, in the caller-supplied order. -/
def load_bytecodes (F : Type) [CommRing F] (Bc : Type) (w : ℕ)
    (table_assignments : Bc → F → List (List F)) (bytecodes : List Bc) (randomness : F) :
    Option (List (Assignment F)) :=
  (assignRows F w 1 (bytecodes.flatMap (fun b => table_assignments b randomness))).map
    (fun l => ⟨0, List.replicate w 0⟩ :: l)

/-- `load_block`: zero sentinel row at offset 0, then the block context's own
table rows at consecutive offsets. -/
def load_block (F : Type) [CommRing F] (Ctx : Type) (w : ℕ)
    (table_assignments : Ctx → F → List (List F)) (block : Ctx) (randomness : F) :
    Option (List (Assignment F)) :=
  (assignRows F w 1 (table_assignments block randomness)).map
    (fun l => ⟨0, List.replicate w 0⟩ :: l)

/-- `load_keccaks`: zero sentinel row at offset 0, then for each input slice
its `keccak_table_assignments` rows at consecutive offsets, in the
caller-supplied order. -/
def load_keccaks (F : Type) [CommRing F] (w : ℕ) (dig : List ℕ → List ℕ)
    (inputs : List (List ℕ)) (randomness : F) : Option (List (Assignment F)) :=
  (assignRows F w 1 (inputs.flatMap (fun input => keccak_table_assignments F dig input randomness))).map
    (fun l => ⟨0, List.replicate w 0⟩ :: l)

/-- One step of an execution trace; only its execution-state kind matters to
the row-count computation, so the kind is an opaque number. -/
structure ExecStep where
  execution_state : ℕ
  deriving DecidableEq

/-- A transaction, as seen by the orchestrator's row-count computation. -/
structure Transaction where
  steps : List ExecStep
  deriving DecidableEq

/-- A block, as seen by the orchestrator's row-count computation. -/
structure Block where
  txs : List Transaction
  deriving DecidableEq

/-- `EvmCircuit::get_num_rows_required`: starts the counter at 1 (so an unused
`next` row is available) and adds each step's declared height
(`self.execution.get_step_height`, a parameter here: the execution state
machine is an external collaborator). -/
def get_num_rows_required (get_step_height : ℕ → ℕ) (block : Block) : ℕ :=
  block.txs.foldl
    (fun num_rows transaction =>
      transaction.steps.foldl
        (fun n step => n + get_step_height step.execution_state) num_rows)
    1

/-- Modelled from the spec: the row count as the spec words it, the plain "sum
of each step's declared row height" over all steps of all transactions, for
comparison with `get_num_rows_required`. -/
def spec_num_rows (get_step_height : ℕ → ℕ) (block : Block) : ℕ :=
  (block.txs.map
    (fun transaction =>
      (transaction.steps.map (fun step => get_step_height step.execution_state)).sum)).sum

/-- `EvmCircuit::get_active_rows`: the gate rows and the lookup rows, each
collected from the range `0..max_offset`. -/
def get_active_rows (get_step_height : ℕ → ℕ) (block : Block) : List ℕ × List ℕ :=
  let max_offset := get_num_rows_required get_step_height block
  let gates_row_ids := List.range max_offset
  let lookup_row_ids := List.range max_offset
  (gates_row_ids, lookup_row_ids)

/-! The absorb step (src/keccak256/src/permutation/absorb.rs).  The field is
instantiated as `ZMod p`; the code is used at the BN254 scalar field `FrP`. -/

/-- The BN254 scalar field modulus, the field the circuits instantiate `F` at. -/
def FrP : ℕ := 21888242871839275222246405745257275088548364400416034343698204186575808495617

/-- `f_to_biguint`: the canonical big-integer value of a field element (the
helper itself is outside the provided sources; the spec's field utilities make
the conversion exact). -/
def f_to_biguint (p : ℕ) (x : ZMod p) : ℕ :=
  x.val

/-- `biguint_to_f`, the inverse direction. -/
def biguint_to_f (p : ℕ) (n : ℕ) : ZMod p :=
  (n : ZMod p)

/-- Modelled from the spec: `BigUint::to_u64_digits().first()` — the lowest
base-2^64 digit of a big integer, whose digit list is empty exactly for zero
(so `first` yields nothing there). -/
def first_u64_digit (n : ℕ) : Option ℕ :=
  if n = 0 then none else some (n % 2 ^ 64)

/-- Binary-digit extraction with explicit 64-bit fuel, the bound the spec's
base-conversion codec fixes. -/
def b2_to_b9_bits : ℕ → ℕ → ℕ
  | 0, _ => 0
  | fuel + 1, n => n % 2 + 9 * b2_to_b9_bits fuel (n / 2)

/-- Modelled from the spec: `convert_b2_to_b9` re-encodes the binary digits of
a 64-bit word as base-9 digits (each digit still 0 or 1); the helper lives in
`arith_helpers`, outside the provided sources. -/
def convert_b2_to_b9 (x : ℕ) : ℕ :=
  b2_to_b9_bits 64 x

/-- `AddConfig::add_advice_mul_const`: one field multiply-accumulate,
`a + b * c` (the gate configuration is outside the provided sources; its
witness value is this ordinary field arithmetic). -/
def add_advice_mul_const (p : ℕ) (a b c : ZMod p) : ZMod p :=
  a + b * c

/-- The per-lane conversion of the "next input words" region: an absent input
makes the assignment closure return `Err(Error::Synthesis)`, a present input
is converted to its big integer, its first u64 digit is taken (`unwrap`, a
panic on zero), re-encoded in base 9, and brought back to the field. -/
def next_input_b9_lane (p : ℕ) (input : Option (ZMod p)) : Option (ZMod p) :=
  input.bind (fun i =>
    (first_u64_digit (f_to_biguint p i)).map
      (fun d => biguint_to_f p (convert_b2_to_b9 d)))

/-- The "next input words" region loop of `apply_absorb`: each lane of
`next_input` is converted in order; the first failing lane (absent input, or a
zero input whose digit list is empty) aborts the region. -/
def convertInputs (p : ℕ) : List (Option (ZMod p)) → Option (List (ZMod p))
  | [] => some []
  | input :: rest =>
    (next_input_b9_lane p input).bind (fun b =>
      (convertInputs p rest).map (fun bs => b :: bs))

/-- The output loop of `apply_absorb`: one combined lane per converted input
lane, each `state[i] + input_b9[i] * A4`; indexing past the end of the state
is a fatal out-of-bounds access. -/
def combineLanes (p : ℕ) (a4 : ZMod p) : List (ZMod p) → List (ZMod p) → Option (List (ZMod p))
  | _, [] => some []
  | [], _ :: _ => none
  | s :: ss, b :: bs =>
    (combineLanes p a4 ss bs).map (fun rest => add_advice_mul_const p s b a4 :: rest)

/-- `apply_absorb`: convert every next-input lane to base 9 (absent lanes make
the region fail, zero lanes panic inside the conversion), combine each
converted lane with the matching state lane as `state + input_b9 * A4`, and
convert the resulting vector into a 25-lane array (`try_into().unwrap()`, a
panic unless exactly 25 lanes were produced).  `A4` lives in `arith_helpers`,
outside the provided sources; the spec treats it as an opaque protocol
constant, so it is a parameter. -/
def apply_absorb (p : ℕ) (a4 : ZMod p) (state : List (ZMod p))
    (next_input : List (Option (ZMod p))) : Option (List (ZMod p)) :=
  (convertInputs p next_input).bind (fun next_input_b9 =>
    (combineLanes p a4 state next_input_b9).bind (fun out_state =>
      if out_state.length = 25 then some out_state else none))

/-! Helper lemmas shared by the claim theorems. -/

lemma assignRows_eq (F : Type) (w : ℕ) :
    ∀ (rows : List (List F)) (off : ℕ) (l : List (Assignment F)),
      assignRows F w off rows = some l →
        l.map Assignment.row = rows ∧ l.map Assignment.offset = List.range' off rows.length
  | [], _, l, h => by
    simp [assignRows] at h
    simp [← h, List.range']
  | row :: rest, off, l, h => by
    rw [assignRows] at h
    by_cases hw : row.length = w
    · rw [if_pos hw, Option.map_eq_some'] at h
      obtain ⟨l', hl', rfl⟩ := h
      obtain ⟨h1, h2⟩ := assignRows_eq F w rest (off + 1) l' hl'
      simp [h1, h2, List.range']
    · rw [if_neg hw] at h
      exact absurd h (by simp)

lemma enumFrom_map (F : Type) :
    ∀ (rows : List (List F)) (off : ℕ),
      (enumFrom F off rows).map Assignment.row = rows ∧
        (enumFrom F off rows).map Assignment.offset = List.range' off rows.length
  | [], off => by simp [enumFrom, List.range']
  | row :: rest, off => by
    obtain ⟨h1, h2⟩ := enumFrom_map F rest (off + 1)
    simp [enumFrom, h1, h2, List.range']

lemma range_succ_cons (n : ℕ) : List.range (n + 1) = 0 :: List.range' 1 n := by
  rw [List.range_eq_range']
  rfl

lemma checkFrom_iff {Rw : Type} (rw_counter : Rw → ℕ) :
    ∀ (l : List Rw) (e : ℕ),
      checkFrom rw_counter e l = true ↔ l.map rw_counter = List.range' e l.length
  | [], e => by simp [checkFrom, List.range']
  | r :: rest, e => by
    have ih := checkFrom_iff rw_counter rest (e + 1)
    simp [checkFrom, List.range', ih]

lemma sorted_counters {Rw : Type} (rw_counter : Rw → ℕ) (l : List Rw) :
    ((List.insertionSort (rwLe rw_counter) l).map rw_counter).Sorted (· ≤ ·) := by
  haveI : IsTotal Rw (rwLe rw_counter) :=
    ⟨fun a b => Nat.le_total (rw_counter a) (rw_counter b)⟩
  haveI : IsTrans Rw (rwLe rw_counter) :=
    ⟨fun _ _ _ hab hbc => Nat.le_trans hab hbc⟩
  exact (List.sorted_insertionSort (rwLe rw_counter) l).map rw_counter (fun _ _ h => h)

lemma perm_counters {Rw : Type} (rw_counter : Rw → ℕ) (l : List Rw) :
    ((List.insertionSort (rwLe rw_counter) l).map rw_counter).Perm (l.map rw_counter) :=
  (List.perm_insertionSort (rwLe rw_counter) l).map rw_counter

lemma rlc_value_eq_sum (F : Type) [CommRing F] :
    ∀ (l : List F) (r : F),
      rlc_value F l r = ∑ i in Finset.range l.length, l.getD i 0 * r ^ i
  | [], r => by simp [rlc_value]
  | v :: vs, r => by
    rw [rlc_value, rlc_value_eq_sum F vs r, List.length_cons, Finset.sum_range_succ']
    simp only [List.getD_cons_succ, List.getD_cons_zero, pow_zero, mul_one, pow_succ]
    rw [Finset.sum_mul, add_comm]
    congr 1
    exact Finset.sum_congr rfl (fun i _ => by ring)

lemma foldl_add_steps (h : ℕ → ℕ) :
    ∀ (l : List ExecStep) (a : ℕ),
      l.foldl (fun n step => n + h step.execution_state) a
        = a + (l.map (fun step => h step.execution_state)).sum
  | [], a => by simp
  | s :: rest, a => by
    rw [List.foldl_cons, foldl_add_steps h rest (a + h s.execution_state)]
    simp [Nat.add_assoc]

lemma foldl_add_txs (h : ℕ → ℕ) :
    ∀ (txs : List Transaction) (a : ℕ),
      txs.foldl
          (fun n tx => tx.steps.foldl (fun m step => m + h step.execution_state) n) a
        = a + (txs.map
            (fun tx => (tx.steps.map (fun step => h step.execution_state)).sum)).sum
  | [], a => by simp
  | tx :: rest, a => by
    rw [List.foldl_cons, foldl_add_steps h tx.steps a, foldl_add_txs h rest _]
    simp [Nat.add_assoc]

lemma assignRows_offsets (F : Type) (w : ℕ) (rows : List (List F)) (l : List (Assignment F))
    (h : assignRows F w 1 rows = some l) :
    l.map Assignment.offset = List.range' 1 l.length := by
  obtain ⟨h1, h2⟩ := assignRows_eq F w rows 1 l h
  have hlen : l.length = rows.length := by
    have := congrArg List.length h1
    simpa using this
  rw [hlen, h2]

lemma enumFrom_offsets (F : Type) (rows : List (List F)) :
    (enumFrom F 1 rows).map Assignment.offset = List.range' 1 (enumFrom F 1 rows).length := by
  obtain ⟨h1, h2⟩ := enumFrom_map F rows 1
  have hlen : (enumFrom F 1 rows).length = rows.length := by
    have := congrArg List.length h1
    simpa using this
  rw [hlen, h2]

/-! Claim theorems. -/

/-- C6 counterexample: for the one-transaction, one-step block whose step has
declared height 7, `get_num_rows_required` returns 8 while the sum of the
declved step heights (what the claim says it returns) is 7. -/
theorem get_num_rows_required_counterexample :
    get_num_rows_required (fun s => s + 7) ⟨[⟨[⟨0⟩]⟩]⟩ = 8 ∧
    spec_num_rows (fun s => s + 7) ⟨[⟨[⟨0⟩]⟩]⟩ = 7 ∧ (8 : ℕ) ≠ 7 := by
  refine ⟨rfl, rfl, by decide⟩

/-- C6 (amended): `get_num_rows_required` returns one more than the sum, over
all steps of all transactions of the block, of the step's declared row height;
the extra row is the reserved unused `next` row the counter starts at. -/
theorem get_num_rows_required_eq_one_add_sum (h : ℕ → ℕ) (b : Block) :
    get_num_rows_required h b = 1 + spec_num_rows h b := by
  rw [get_num_rows_required, spec_num_rows, foldl_add_txs h b.txs 1]

/-- C10: `get_active_rows` returns two identical lists, both the full
contiguous range of offsets below `get_num_rows_required`, so every such row
is reported active for both gates and lookups. -/
theorem get_active_rows_full_range (h : ℕ → ℕ) (b : Block) :
    (get_active_rows h b).1 = (get_active_rows h b).2 ∧
    (get_active_rows h b).1 = List.range (get_num_rows_required h b) ∧
    ∀ i : ℕ, i ∈ (get_active_rows h b).1 ↔ i < get_num_rows_required h b := by
  refine ⟨rfl, rfl, fun i => ?_⟩
  exact List.mem_range

/-- C1: `load_rws` gathers the records of every group of the rw map, sorts
them by ascending rw counter, and the expected-counter scan (starting at 1,
incrementing by 1 per record) forces the emitted counters to be exactly
1, 2, …, N; any collection whose counters are a permutation of {1,2,3} yields
rows in counter order 1,2,3, while a gapped collection such as {1,3} makes
construction abort. -/
theorem load_rws_sorted_counter_checked (F : Type) [CommRing F] (Rw : Type) (w : ℕ)
    (rw_counter : Rw → ℕ) (table_assignment : Rw → F → List F)
    (rws : List (List Rw)) (randomness : F) :
    (∀ l, load_rws F Rw w rw_counter table_assignment rws randomness = some l →
        l = ⟨0, List.replicate w 0⟩ ::
            enumFrom F 1 ((List.insertionSort (rwLe rw_counter) (rws.flatMap id)).map
              (fun r => table_assignment r randomness)) ∧
        (List.insertionSort (rwLe rw_counter) (rws.flatMap id)).map rw_counter =
          List.range' 1 (rws.flatMap id).length) ∧
    (((rws.flatMap id).map rw_counter).Perm [1, 2, 3] →
        (List.insertionSort (rwLe rw_counter) (rws.flatMap id)).map rw_counter = [1, 2, 3] ∧
        load_rws F Rw w rw_counter table_assignment rws randomness ≠ none) ∧
    (((rws.flatMap id).map rw_counter).Perm [1, 3] →
        load_rws F Rw w rw_counter table_assignment rws randomness = none) := by
  have hlen : (List.insertionSort (rwLe rw_counter) (rws.flatMap id)).length =
      (rws.flatMap id).length :=
    (List.perm_insertionSort (rwLe rw_counter) (rws.flatMap id)).length_eq
  refine ⟨?_, ?_, ?_⟩
  · intro l hl
    simp only [load_rws] at hl
    by_cases hc :
        checkFrom rw_counter 1 (List.insertionSort (rwLe rw_counter) (rws.flatMap id)) = true
    · rw [if_pos hc, Option.some.injEq] at hl
      refine ⟨hl.symm, ?_⟩
      have h2 := (checkFrom_iff rw_counter
        (List.insertionSort (rwLe rw_counter) (rws.flatMap id)) 1).mp hc
      rwa [hlen] at h2
    · rw [if_neg hc] at hl
      cases hl
  · intro hperm
    have heq : (List.insertionSort (rwLe rw_counter) (rws.flatMap id)).map rw_counter =
        [1, 2, 3] :=
      List.eq_of_perm_of_sorted ((perm_counters rw_counter (rws.flatMap id)).trans hperm)
        (sorted_counters rw_counter (rws.flatMap id)) (by decide)
    have hlen3 : (List.insertionSort (rwLe rw_counter) (rws.flatMap id)).length = 3 := by
      have := congrArg List.length heq
      simpa using this
    have hc :
        checkFrom rw_counter 1 (List.insertionSort (rwLe rw_counter) (rws.flatMap id)) = true := by
      rw [checkFrom_iff, hlen3, heq]
      rfl
    refine ⟨heq, ?_⟩
    simp only [load_rws]
    rw [if_pos hc]
    exact Option.some_ne_none _
  · intro hperm
    have heq : (List.insertionSort (rwLe rw_counter) (rws.flatMap id)).map rw_counter =
        [1, 3] :=
      List.eq_of_perm_of_sorted ((perm_counters rw_counter (rws.flatMap id)).trans hperm)
        (sorted_counters rw_counter (rws.flatMap id)) (by decide)
    have hlen2 : (List.insertionSort (rwLe rw_counter) (rws.flatMap id)).length = 2 := by
      have := congrArg List.length heq
      simpa using this
    have hc :
        checkFrom rw_counter 1 (List.insertionSort (rwLe rw_counter) (rws.flatMap id)) = false := by
      rw [Bool.eq_false_iff]
      intro habs
      have h2 := (checkFrom_iff rw_counter
        (List.insertionSort (rwLe rw_counter) (rws.flatMap id)) 1).mp habs
      rw [hlen2, heq] at h2
      cases h2
    have hc' :
        ¬ checkFrom rw_counter 1 (List.insertionSort (rwLe rw_counter) (rws.flatMap id)) = true := by
      rw [hc]
      exact Bool.false_ne_true
    simp only [load_rws]
    rw [if_neg hc']

/-- Witness for C1 at concrete inputs: gathering the groups [3,1] and [2]
(counters a permutation of {1,2,3}) constructs the table with rows in counter
order 1,2,3 at offsets 1,2,3 after the sentinel, while the single group [1,3]
(a gap at 2) aborts construction. -/
theorem load_rws_sorted_counter_checked_witness :
    (([⟨0, [0]⟩, ⟨1, [1]⟩, ⟨2, [2]⟩, ⟨3, [3]⟩] : List (Assignment ℤ)) =
        ⟨0, List.replicate 1 0⟩ ::
          enumFrom ℤ 1
            ((List.insertionSort (rwLe id) (([[3, 1], [2]] : List (List ℕ)).flatMap id)).map
              (fun r => [(r : ℤ)])) ∧
      (List.insertionSort (rwLe id) (([[3, 1], [2]] : List (List ℕ)).flatMap id)).map id =
        List.range' 1 (([[3, 1], [2]] : List (List ℕ)).flatMap id).length) ∧
    ((List.insertionSort (rwLe id) (([[3, 1], [2]] : List (List ℕ)).flatMap id)).map id =
        [1, 2, 3] ∧
      load_rws ℤ ℕ 1 id (fun n _ => [(n : ℤ)]) [[3, 1], [2]] 0 ≠ none) ∧
    load_rws ℤ ℕ 1 id (fun n _ => [(n : ℤ)]) [[1, 3]] 0 = none :=
  ⟨(load_rws_sorted_counter_checked ℤ ℕ 1 id (fun n _ => [(n : ℤ)]) [[3, 1], [2]] 0).1
      [⟨0, [0]⟩, ⟨1, [1]⟩, ⟨2, [2]⟩, ⟨3, [3]⟩] (by decide),
    (load_rws_sorted_counter_checked ℤ ℕ 1 id (fun n _ => [(n : ℤ)]) [[3, 1], [2]] 0).2.1
      (by decide),
    (load_rws_sorted_counter_checked ℤ ℕ 1 id (fun n _ => [(n : ℤ)]) [[1, 3]] 0).2.2
      (by decide)⟩

/-- C2: for every table kind (transaction, rw, bytecode, block, keccak) and
every input record collection for which construction succeeds, the row
assigned at offset 0 is the all-zero tuple, and the record-derived rows are
emitted at offsets 1, 2, … after it. -/
theorem load_tables_sentinel_zero_row
    (F : Type) [CommRing F] (Tx Bc Ctx Rw : Type)
    (wt wr wb wc wk : ℕ)
    (tx_assign : Tx → F → List (List F)) (txs : List Tx)
    (rw_counter : Rw → ℕ) (rw_assign : Rw → F → List F) (rws : List (List Rw))
    (bc_assign : Bc → F → List (List F)) (bcs : List Bc)
    (ctx_assign : Ctx → F → List (List F)) (ctx : Ctx)
    (dig : List ℕ → List ℕ) (inputs : List (List ℕ)) (randomness : F)
    (l1 l2 l3 l4 l5 : List (Assignment F))
    (h1 : load_txs F Tx wt tx_assign txs randomness = some l1)
    (h2 : load_rws F Rw wr rw_counter rw_assign rws randomness = some l2)
    (h3 : load_bytecodes F Bc wb bc_assign bcs randomness = some l3)
    (h4 : load_block F Ctx wc ctx_assign ctx randomness = some l4)
    (h5 : load_keccaks F wk dig inputs randomness = some l5) :
    (l1.head? = some ⟨0, List.replicate wt 0⟩ ∧
      l1.tail.map Assignment.offset = List.range' 1 l1.tail.length) ∧
    (l2.head? = some ⟨0, List.replicate wr 0⟩ ∧
      l2.tail.map Assignment.offset = List.range' 1 l2.tail.length) ∧
    (l3.head? = some ⟨0, List.replicate wb 0⟩ ∧
      l3.tail.map Assignment.offset = List.range' 1 l3.tail.length) ∧
    (l4.head? = some ⟨0, List.replicate wc 0⟩ ∧
      l4.tail.map Assignment.offset = List.range' 1 l4.tail.length) ∧
    (l5.head? = some ⟨0, List.replicate wk 0⟩ ∧
      l5.tail.map Assignment.offset = List.range' 1 l5.tail.length) := by
  obtain ⟨t1, ht1, rfl⟩ := Option.map_eq_some'.mp h1
  obtain ⟨t3, ht3, rfl⟩ := Option.map_eq_some'.mp h3
  obtain ⟨t4, ht4, rfl⟩ := Option.map_eq_some'.mp h4
  obtain ⟨t5, ht5, rfl⟩ := Option.map_eq_some'.mp h5
  simp only [load_rws] at h2
  by_cases hc :
      checkFrom rw_counter 1 (List.insertionSort (rwLe rw_counter) (rws.flatMap id)) = true
  · rw [if_pos hc, Option.some.injEq] at h2
    subst h2
    exact ⟨⟨rfl, assignRows_offsets F wt _ t1 ht1⟩,
      ⟨rfl, enumFrom_offsets F _⟩,
      ⟨rfl, assignRows_offsets F wb _ t3 ht3⟩,
      ⟨rfl, assignRows_offsets F wc _ t4 ht4⟩,
      ⟨rfl, assignRows_offsets F wk _ t5 ht5⟩⟩
  · rw [if_neg hc] at h2
    cases h2

/-- Witness for C2 at concrete non-empty inputs for all five tables. -/
theorem load_tables_sentinel_zero_row_witness :
    (([⟨0, [0]⟩, ⟨1, [5]⟩] : List (Assignment ℤ)).head? = some ⟨0, List.replicate 1 0⟩ ∧
      ([⟨0, [0]⟩, ⟨1, [5]⟩] : List (Assignment ℤ)).tail.map Assignment.offset =
        List.range' 1 ([⟨0, [0]⟩, ⟨1, [5]⟩] : List (Assignment ℤ)).tail.length) ∧
    (([⟨0, [0]⟩, ⟨1, [1]⟩] : List (Assignment ℤ)).head? = some ⟨0, List.replicate 1 0⟩ ∧
      ([⟨0, [0]⟩, ⟨1, [1]⟩] : List (Assignment ℤ)).tail.map Assignment.offset =
        List.range' 1 ([⟨0, [0]⟩, ⟨1, [1]⟩] : List (Assignment ℤ)).tail.length) ∧
    (([⟨0, [0]⟩, ⟨1, [7]⟩] : List (Assignment ℤ)).head? = some ⟨0, List.replicate 1 0⟩ ∧
      ([⟨0, [0]⟩, ⟨1, [7]⟩] : List (Assignment ℤ)).tail.map Assignment.offset =
        List.range' 1 ([⟨0, [0]⟩, ⟨1, [7]⟩] : List (Assignment ℤ)).tail.length) ∧
    (([⟨0, [0]⟩, ⟨1, [3]⟩] : List (Assignment ℤ)).head? = some ⟨0, List.replicate 1 0⟩ ∧
      ([⟨0, [0]⟩, ⟨1, [3]⟩] : List (Assignment ℤ)).tail.map Assignment.offset =
        List.range' 1 ([⟨0, [0]⟩, ⟨1, [3]⟩] : List (Assignment ℤ)).tail.length) ∧
    (([⟨0, [0, 0, 0, 0]⟩,
        ⟨1, [1, 97, 1, rlc_value ℤ ((word_to_le_bytes (List.replicate 32 0)).map
          (fun b : ℕ => (b : ℤ))) 2]⟩] : List (Assignment ℤ)).head? =
        some ⟨0, List.replicate 4 0⟩ ∧
      ([⟨0, [0, 0, 0, 0]⟩,
        ⟨1, [1, 97, 1, rlc_value ℤ ((word_to_le_bytes (List.replicate 32 0)).map
          (fun b : ℕ => (b : ℤ))) 2]⟩] : List (Assignment ℤ)).tail.map Assignment.offset =
        List.range' 1 ([⟨0, [0, 0, 0, 0]⟩,
          ⟨1, [1, 97, 1, rlc_value ℤ ((word_to_le_bytes (List.replicate 32 0)).map
            (fun b : ℕ => (b : ℤ))) 2]⟩] : List (Assignment ℤ)).tail.length) :=
  load_tables_sentinel_zero_row ℤ ℕ ℕ ℕ ℕ 1 1 1 1 4
    (fun n _ => [[(n : ℤ)]]) [5]
    id (fun n _ => [(n : ℤ)]) [[1]]
    (fun n _ => [[(n : ℤ)]]) [7]
    (fun _ _ => [[3]]) 0
    (fun _ => List.replicate 32 0) [[97]] 2
    [⟨0, [0]⟩, ⟨1, [5]⟩] [⟨0, [0]⟩, ⟨1, [1]⟩] [⟨0, [0]⟩, ⟨1, [7]⟩] [⟨0, [0]⟩, ⟨1, [3]⟩]
    [⟨0, [0, 0, 0, 0]⟩,
      ⟨1, [1, 97, 1, rlc_value ℤ ((word_to_le_bytes (List.replicate 32 0)).map
        (fun b : ℕ => (b : ℤ))) 2]⟩]
    (by rfl) (by rfl) (by rfl) (by rfl) (by rfl)

/-- C7: the transaction, bytecode, block and keccak table builders iterate
their records in caller-supplied order, expand each through its own table-row
expansion with the shared challenge, and emit the resulting rows at
consecutive offsets, so the rows after the sentinel mirror the input record
order. -/
theorem load_tables_mirror_input_order
    (F : Type) [CommRing F] (Tx Bc Ctx : Type)
    (wt wb wc wk : ℕ)
    (tx_assign : Tx → F → List (List F)) (txs : List Tx)
    (bc_assign : Bc → F → List (List F)) (bcs : List Bc)
    (ctx_assign : Ctx → F → List (List F)) (ctx : Ctx)
    (dig : List ℕ → List ℕ) (inputs : List (List ℕ)) (randomness : F)
    (l1 l3 l4 l5 : List (Assignment F))
    (h1 : load_txs F Tx wt tx_assign txs randomness = some l1)
    (h3 : load_bytecodes F Bc wb bc_assign bcs randomness = some l3)
    (h4 : load_block F Ctx wc ctx_assign ctx randomness = some l4)
    (h5 : load_keccaks F wk dig inputs randomness = some l5) :
    (l1.map Assignment.row =
        List.replicate wt 0 :: txs.flatMap (fun tx => tx_assign tx randomness) ∧
      l1.map Assignment.offset = List.range l1.length) ∧
    (l3.map Assignment.row =
        List.replicate wb 0 :: bcs.flatMap (fun b => bc_assign b randomness) ∧
      l3.map Assignment.offset = List.range l3.length) ∧
    (l4.map Assignment.row = List.replicate wc 0 :: ctx_assign ctx randomness ∧
      l4.map Assignment.offset = List.range l4.length) ∧
    (l5.map Assignment.row =
        List.replicate wk 0 ::
          inputs.flatMap (fun input => keccak_table_assignments F dig input randomness) ∧
      l5.map Assignment.offset = List.range l5.length) := by
  obtain ⟨t1, ht1, rfl⟩ := Option.map_eq_some'.mp h1
  obtain ⟨t3, ht3, rfl⟩ := Option.map_eq_some'.mp h3
  obtain ⟨t4, ht4, rfl⟩ := Option.map_eq_some'.mp h4
  obtain ⟨t5, ht5, rfl⟩ := Option.map_eq_some'.mp h5
  obtain ⟨hr1, ho1⟩ := assignRows_eq F wt _ 1 t1 ht1
  obtain ⟨hr3, ho3⟩ := assignRows_eq F wb _ 1 t3 ht3
  obtain ⟨hr4, ho4⟩ := assignRows_eq F wc _ 1 t4 ht4
  obtain ⟨hr5, ho5⟩ := assignRows_eq F wk _ 1 t5 ht5
  have hlen1 : t1.length = (txs.flatMap (fun tx => tx_assign tx randomness)).length := by
    have := congrArg List.length hr1
    simpa using this
  have hlen3 : t3.length = (bcs.flatMap (fun b => bc_assign b randomness)).length := by
    have := congrArg List.length hr3
    simpa using this
  have hlen4 : t4.length = (ctx_assign ctx randomness).length := by
    have := congrArg List.length hr4
    simpa using this
  have hlen5 : t5.length =
      (inputs.flatMap (fun input => keccak_table_assignments F dig input randomness)).length := by
    have := congrArg List.length hr5
    simpa using this
  refine ⟨⟨by simp [hr1], ?_⟩, ⟨by simp [hr3], ?_⟩, ⟨by simp [hr4], ?_⟩, ⟨by simp [hr5], ?_⟩⟩
  · simp [range_succ_cons, ho1, hlen1]
  · simp [range_succ_cons, ho3, hlen3]
  · simp [range_succ_cons, ho4, hlen4]
  · simp [range_succ_cons, ho5, hlen5]

/-- Witness for C7 at concrete inputs: two transactions of one row each, one
two-byte bytecode, one block context and one keccak input, all emitted in
input order at consecutive offsets. -/
theorem load_tables_mirror_input_order_witness :
    (([⟨0, [0]⟩, ⟨1, [5]⟩, ⟨2, [6]⟩] : List (Assignment ℤ)).map Assignment.row =
        List.replicate 1 0 ::
          ([5, 6] : List ℕ).flatMap (fun tx => (fun n (_ : ℤ) => [[(n : ℤ)]]) tx 2) ∧
      ([⟨0, [0]⟩, ⟨1, [5]⟩, ⟨2, [6]⟩] : List (Assignment ℤ)).map Assignment.offset =
        List.range ([⟨0, [0]⟩, ⟨1, [5]⟩, ⟨2, [6]⟩] : List (Assignment ℤ)).length) ∧
    (([⟨0, [0]⟩, ⟨1, [8]⟩, ⟨2, [9]⟩] : List (Assignment ℤ)).map Assignment.row =
        List.replicate 1 0 ::
          ([0] : List ℕ).flatMap (fun b => (fun _ (_ : ℤ) => [[(8 : ℤ)], [9]]) b 2) ∧
      ([⟨0, [0]⟩, ⟨1, [8]⟩, ⟨2, [9]⟩] : List (Assignment ℤ)).map Assignment.offset =
        List.range ([⟨0, [0]⟩, ⟨1, [8]⟩, ⟨2, [9]⟩] : List (Assignment ℤ)).length) ∧
    (([⟨0, [0]⟩, ⟨1, [3]⟩] : List (Assignment ℤ)).map Assignment.row =
        List.replicate 1 0 :: (fun _ (_ : ℤ) => [[(3 : ℤ)]]) 0 2 ∧
      ([⟨0, [0]⟩, ⟨1, [3]⟩] : List (Assignment ℤ)).map Assignment.offset =
        List.range ([⟨0, [0]⟩, ⟨1, [3]⟩] : List (Assignment ℤ)).length) ∧
    (([⟨0, [0, 0, 0, 0]⟩,
        ⟨1, [1, 97, 1, rlc_value ℤ ((word_to_le_bytes (List.replicate 32 0)).map
          (fun b : ℕ => (b : ℤ))) 2]⟩] : List (Assignment ℤ)).map Assignment.row =
        List.replicate 4 0 ::
          ([[97]] : List (List ℕ)).flatMap
            (fun input => keccak_table_assignments ℤ (fun _ => List.replicate 32 0) input 2) ∧
      ([⟨0, [0, 0, 0, 0]⟩,
        ⟨1, [1, 97, 1, rlc_value ℤ ((word_to_le_bytes (List.replicate 32 0)).map
          (fun b : ℕ => (b : ℤ))) 2]⟩] : List (Assignment ℤ)).map Assignment.offset =
        List.range ([⟨0, [0, 0, 0, 0]⟩,
          ⟨1, [1, 97, 1, rlc_value ℤ ((word_to_le_bytes (List.replicate 32 0)).map
            (fun b : ℕ => (b : ℤ))) 2]⟩] : List (Assignment ℤ)).length) :=
  load_tables_mirror_input_order ℤ ℕ ℕ ℕ 1 1 1 4
    (fun n _ => [[(n : ℤ)]]) [5, 6]
    (fun _ _ => [[(8 : ℤ)], [9]]) [0]
    (fun _ _ => [[(3 : ℤ)]]) 0
    (fun _ => List.replicate 32 0) [[97]] 2
    [⟨0, [0]⟩, ⟨1, [5]⟩, ⟨2, [6]⟩] [⟨0, [0]⟩, ⟨1, [8]⟩, ⟨2, [9]⟩] [⟨0, [0]⟩, ⟨1, [3]⟩]
    [⟨0, [0, 0, 0, 0]⟩,
      ⟨1, [1, 97, 1, rlc_value ℤ ((word_to_le_bytes (List.replicate 32 0)).map
        (fun b : ℕ => (b : ℤ))) 2]⟩]
    (by rfl) (by rfl) (by rfl) (by rfl)

/-! Helper lemmas about the absorb step. -/

lemma f_to_biguint_zero (p : ℕ) : f_to_biguint p 0 = 0 := by
  cases p with
  | zero => rfl
  | succ n => exact ZMod.val_zero

lemma convertInputs_some (p : ℕ) :
    ∀ (inputs : List (Option (ZMod p))) (b9s : List (ZMod p)),
      convertInputs p inputs = some b9s →
        b9s.length = inputs.length ∧
        ∀ i, i < inputs.length →
          next_input_b9_lane p (inputs.getD i none) = some (b9s.getD i 0)
  | [], b9s, h => by
    simp only [convertInputs, Option.some.injEq] at h
    subst h
    exact ⟨rfl, fun i hi => absurd hi (by simp)⟩
  | input :: rest, b9s, h => by
    rw [convertInputs] at h
    cases hb : next_input_b9_lane p input with
    | none =>
      rw [hb] at h
      cases h
    | some b =>
      rw [hb] at h
      cases hr : convertInputs p rest with
      | none =>
        rw [hr] at h
        cases h
      | some bs =>
        rw [hr] at h
        simp only [Option.some_bind, Option.map_some', Option.some.injEq] at h
        obtain ⟨hlen, hidx⟩ := convertInputs_some p rest bs hr
        subst h
        refine ⟨by simp [hlen], fun i hi => ?_⟩
        cases i with
        | zero => simpa using hb
        | succ i => simpa using hidx i (by simpa using hi)

lemma convertInputs_fail (p : ℕ) :
    ∀ (inputs : List (Option (ZMod p))) (i : ℕ), i < inputs.length →
      next_input_b9_lane p (inputs.getD i none) = none →
      convertInputs p inputs = none
  | [], i, hi, _ => absurd hi (by simp)
  | input :: rest, 0, _, hl => by
    rw [List.getD_cons_zero] at hl
    rw [convertInputs, hl]
    rfl
  | input :: rest, i + 1, hi, hl => by
    rw [List.getD_cons_succ] at hl
    have hrest := convertInputs_fail p rest i (by simpa using hi) hl
    rw [convertInputs, hrest]
    cases next_input_b9_lane p input <;> rfl

lemma combineLanes_some (p : ℕ) (a4 : ZMod p) :
    ∀ (state b9s out : List (ZMod p)), combineLanes p a4 state b9s = some out →
      out = List.zipWith (fun s b => s + b * a4) state b9s ∧
      b9s.length ≤ state.length ∧ out.length = b9s.length
  | state, [], out, h => by
    cases state with
    | nil =>
      simp only [combineLanes, Option.some.injEq] at h
      simp [← h]
    | cons s ss =>
      simp only [combineLanes, Option.some.injEq] at h
      simp [← h]
  | [], b :: bs, out, h => by
    cases h
  | s :: ss, b :: bs, out, h => by
    rw [combineLanes] at h
    cases hr : combineLanes p a4 ss bs with
    | none =>
      rw [hr] at h
      cases h
    | some rest =>
      rw [hr] at h
      simp only [Option.map_some', Option.some.injEq] at h
      obtain ⟨h1, h2, h3⟩ := combineLanes_some p a4 ss bs rest hr
      subst h
      refine ⟨by simp [add_advice_mul_const, h1], by simpa using h2, by simp [h3]⟩

lemma combineLanes_getD (p : ℕ) (a4 : ZMod p) :
    ∀ (state b9s out : List (ZMod p)), combineLanes p a4 state b9s = some out →
      ∀ i, i < b9s.length → out.getD i 0 = state.getD i 0 + b9s.getD i 0 * a4
  | _, [], _, _, i, hi => absurd hi (by simp)
  | [], b :: bs, out, h, i, hi => by
    cases h
  | s :: ss, b :: bs, out, h, i, hi => by
    rw [combineLanes] at h
    cases hr : combineLanes p a4 ss bs with
    | none =>
      rw [hr] at h
      cases h
    | some rest =>
      rw [hr] at h
      simp only [Option.map_some', Option.some.injEq] at h
      subst h
      cases i with
      | zero => simp [add_advice_mul_const]
      | succ i => simpa using combineLanes_getD p a4 ss bs rest hr i (by simpa using hi)

lemma apply_absorb_some (p : ℕ) (a4 : ZMod p) (state : List (ZMod p))
    (next_input : List (Option (ZMod p))) (out : List (ZMod p))
    (h : apply_absorb p a4 state next_input = some out) :
    ∃ b9s, convertInputs p next_input = some b9s ∧
      combineLanes p a4 state b9s = some out ∧ out.length = 25 := by
  rw [apply_absorb] at h
  cases hcv : convertInputs p next_input with
  | none =>
    rw [hcv] at h
    cases h
  | some b9s =>
    rw [hcv] at h
    simp only [Option.some_bind] at h
    cases hcl : combineLanes p a4 state b9s with
    | none =>
      rw [hcl] at h
      cases h
    | some o =>
      rw [hcl] at h
      simp only [Option.some_bind] at h
      by_cases h25 : o.length = 25
      · rw [if_pos h25, Option.some.injEq] at h
        subst h
        exact ⟨b9s, rfl, hcl, h25⟩
      · rw [if_neg h25] at h
        cases h

/-- C5: for every input byte slice, the keccak table expansion is exactly one
row: the enabled flag 1, the RLC of the reversed input bytes under the
challenge, the input length as a field element, and the RLC (in the
little-endian accumulation order) of the 32-byte big-endian digest; the
length field is 0 for the empty input and 3 for the three-byte input "abc". -/
theorem keccak_table_assignments_one_row (F : Type) [CommRing F] (dig : List ℕ → List ℕ)
    (input : List ℕ) (r : F) (hdig : (dig input).length = 32) :
    keccak_table_assignments F dig input r =
      [[1,
        ∑ i in Finset.range input.length,
          (input.reverse.map (fun b : ℕ => (b : F))).getD i 0 * r ^ i,
        (input.length : F),
        ∑ i in Finset.range 32,
          ((dig input).reverse.map (fun b : ℕ => (b : F))).getD i 0 * r ^ i]] ∧
    (keccak_table_assignments F dig input r).length = 1 ∧
    ((keccak_table_assignments F dig [] r).headD []).getD 2 1 = 0 ∧
    ((keccak_table_assignments F dig [97, 98, 99] r).headD []).getD 2 0 = 3 := by
  have hw : word_to_le_bytes (dig input) = (dig input).reverse := by
    rw [word_to_le_bytes, hdig]
    simp
  refine ⟨?_, by simp [keccak_table_assignments], ?_, ?_⟩
  · simp only [keccak_table_assignments, random_linear_combine, hw]
    rw [rlc_value_eq_sum, rlc_value_eq_sum]
    have h1 : (input.reverse.map (fun b : ℕ => (b : F))).length = input.length := by
      rw [List.length_map, List.length_reverse]
    have h2 : ((dig input).reverse.map (fun b : ℕ => (b : F))).length = 32 := by
      rw [List.length_map, List.length_reverse, hdig]
    rw [h1, h2]
  · simp [keccak_table_assignments]
  · simp [keccak_table_assignments]

/-- Witness for C5 at a concrete input and digest function. -/
theorem keccak_table_assignments_one_row_witness :
    keccak_table_assignments ℤ (fun _ => List.replicate 32 0) [97] 2 =
      [[1,
        ∑ i in Finset.range ([97] : List ℕ).length,
          (([97] : List ℕ).reverse.map (fun b : ℕ => (b : ℤ))).getD i 0 * 2 ^ i,
        ((([97] : List ℕ).length : ℕ) : ℤ),
        ∑ i in Finset.range 32,
          (((fun _ => List.replicate 32 0) ([97] : List ℕ)).reverse.map
            (fun b : ℕ => (b : ℤ))).getD i 0 * 2 ^ i]] ∧
    (keccak_table_assignments ℤ (fun _ => List.replicate 32 0) [97] 2).length = 1 ∧
    ((keccak_table_assignments ℤ (fun _ => List.replicate 32 0) [] 2).headD []).getD 2 1 = 0 ∧
    ((keccak_table_assignments ℤ (fun _ => List.replicate 32 0) [97, 98, 99] 2).headD []).getD
      2 0 = 3 :=
  keccak_table_assignments_one_row ℤ (fun _ => List.replicate 32 0) [97] 2 (by rfl)

/-- C3 counterexample: with all previous state lanes zero and next-input
lanes [1,0,0,…] (all lanes present), the absorb step aborts — each zero
input's big integer has an empty u64-digit list, so taking the first digit
fails — hence no updated lane 0 exists there, and in particular it does not
equal `to_alt_base(1) * A4`. -/
theorem apply_absorb_one_zero_zero_counterexample :
    apply_absorb FrP 9 (List.replicate 25 0)
      (some 1 :: List.replicate 24 (some 0)) = none := by
  decide

/-- C3 (amended): whenever the absorb step produces an output state, every
lane with a present next-input value `v` is updated, by ordinary field
arithmetic, to `previous_lane + to_alt_base(low_64_bits(v)) * A4`; with all
previous lanes zero and every next-input lane present and equal to 1 (the
claim's `[1,0,0,...]` instead aborts on its zero inputs), the updated lane 0
equals `to_alt_base(1) * A4`. -/
theorem apply_absorb_present_lane_update (p : ℕ) (a4 : ZMod p) (state : List (ZMod p))
    (next_input : List (Option (ZMod p))) (out : List (ZMod p))
    (h : apply_absorb p a4 state next_input = some out) :
    ∀ i v, next_input.getD i none = some v → i < next_input.length →
      out.getD i 0 = state.getD i 0 +
        biguint_to_f p (convert_b2_to_b9 (f_to_biguint p v % 2 ^ 64)) * a4 := by
  obtain ⟨b9s, hcv, hcl, _⟩ := apply_absorb_some p a4 state next_input out h
  obtain ⟨hblen, hbidx⟩ := convertInputs_some p next_input b9s hcv
  intro i v hv hi
  have hlane := hbidx i hi
  rw [hv] at hlane
  have hlane' : (first_u64_digit (f_to_biguint p v)).map
      (fun d => biguint_to_f p (convert_b2_to_b9 d)) = some (b9s.getD i 0) := hlane
  by_cases hz : f_to_biguint p v = 0
  · rw [first_u64_digit, if_pos hz] at hlane'
    cases hlane'
  · rw [first_u64_digit, if_neg hz] at hlane'
    simp only [Option.map_some', Option.some.injEq] at hlane'
    have hcomb := combineLanes_getD p a4 state b9s out hcl i (by rw [hblen]; exact hi)
    rw [hcomb, ← hlane']

/-- Witness for C3 (amended) at the concrete all-ones input over the BN254
scalar field with A4 instantiated at 9. -/
theorem apply_absorb_present_lane_update_witness :
    (List.replicate 25 (9 : ZMod FrP)).getD 0 0 =
      (List.replicate 25 (0 : ZMod FrP)).getD 0 0 +
        biguint_to_f FrP (convert_b2_to_b9 (f_to_biguint FrP 1 % 2 ^ 64)) * 9 :=
  apply_absorb_present_lane_update FrP 9 (List.replicate 25 0)
    (List.replicate 25 (some 1)) (List.replicate 25 9) (by decide) 0 1 (by decide) (by decide)

/-- C4: evaluating the absorb step at inputs with absent lanes: with all 25
next-input lanes absent — and likewise with a single absent lane among
present ones — construction fails (the assignment closure of an absent lane
returns a synthesis error) instead of passing the previous-state lanes
through unchanged; no output state exists at all. -/
theorem apply_absorb_absent_lane_aborts :
    apply_absorb FrP 9 (List.replicate 25 0) (List.replicate 25 none) = none ∧
    apply_absorb FrP 9 (List.replicate 25 0)
      (some 1 :: none :: List.replicate 23 (some 1)) = none := by
  exact ⟨by decide, by decide⟩

/-- C8 counterexample: the present input lane 2^64 has low 64 bits equal to
zero, yet the absorb step is total on it — the value is a nonzero big
integer, so its first u64 digit (0) exists and converts — refuting that
totality requires every present lane to have a nonzero low-64-bit value. -/
theorem apply_absorb_low64_counterexample :
    apply_absorb FrP 9 (List.replicate 25 0)
      (List.replicate 25 (some 18446744073709551616)) = some (List.replicate 25 0) ∧
    f_to_biguint FrP 18446744073709551616 % 2 ^ 64 = 0 ∧
    (18446744073709551616 : ZMod FrP) ≠ 0 := by
  exact ⟨by decide, by decide, by decide⟩

/-- C8 (amended): the absorb step aborts on any present next-input lane whose
value is zero (converting it to a big integer yields an empty u64-digit
sequence and taking the first digit fails), and whenever it produces an
output state every present input lane carries a nonzero value — nonzero as a
big integer, not nonzero low 64 bits. -/
theorem apply_absorb_zero_input_aborts (p : ℕ) (a4 : ZMod p)
    (state : List (ZMod p)) (next_input : List (Option (ZMod p))) :
    (∀ i, i < next_input.length → next_input.getD i none = some 0 →
        apply_absorb p a4 state next_input = none) ∧
    (∀ out, apply_absorb p a4 state next_input = some out →
        ∀ i v, i < next_input.length → next_input.getD i none = some v →
          f_to_biguint p v ≠ 0) := by
  constructor
  · intro i hi hv
    have hlane : next_input_b9_lane p (next_input.getD i none) = none := by
      rw [hv, next_input_b9_lane]
      simp [first_u64_digit, f_to_biguint_zero p]
    rw [apply_absorb, convertInputs_fail p next_input i hi hlane]
    rfl
  · intro out h i v hi hv hz
    obtain ⟨b9s, hcv, _, _⟩ := apply_absorb_some p a4 state next_input out h
    obtain ⟨_, hbidx⟩ := convertInputs_some p next_input b9s hcv
    have hlane := hbidx i hi
    rw [hv] at hlane
    have hlane' : (first_u64_digit (f_to_biguint p v)).map
        (fun d => biguint_to_f p (convert_b2_to_b9 d)) = some (b9s.getD i 0) := hlane
    rw [first_u64_digit, if_pos hz] at hlane'
    cases hlane'

/-- Witness for C8 (amended): a zero lane among present ones aborts, and at a
succeeding input the present lane 1 is indeed nonzero. -/
theorem apply_absorb_zero_input_aborts_witness :
    apply_absorb FrP 9 (List.replicate 25 0)
      (some 0 :: List.replicate 24 (some 1)) = none ∧
    f_to_biguint FrP 1 ≠ 0 :=
  ⟨(apply_absorb_zero_input_aborts FrP 9 (List.replicate 25 0)
      (some 0 :: List.replicate 24 (some 1))).1 0 (by decide) (by decide),
    (apply_absorb_zero_input_aborts FrP 9 (List.replicate 25 0)
      (List.replicate 25 (some 1))).2 (List.replicate 25 9) (by decide) 0 1 (by decide)
      (by decide)⟩

/-- C9: whenever the absorb step returns a state, the next-input lane count
is exactly 25 (the `try_into` of the combined-lane vector into a 25-lane
array panics otherwise), the output has 25 lanes, and the output is built
from exactly the converted input lanes — one combined lane
`state[i] + input_b9[i] * A4` per next-input entry, with no previous-state
lane beyond the input lane count copied into it. -/
theorem apply_absorb_output_shape (p : ℕ) (a4 : ZMod p) (state : List (ZMod p))
    (next_input : List (Option (ZMod p))) (out : List (ZMod p))
    (h : apply_absorb p a4 state next_input = some out) :
    next_input.length = 25 ∧ out.length = 25 ∧
    ∃ b9s : List (ZMod p), convertInputs p next_input = some b9s ∧
      out = List.zipWith (fun s b => s + b * a4) state b9s := by
  obtain ⟨b9s, hcv, hcl, h25⟩ := apply_absorb_some p a4 state next_input out h
  obtain ⟨hzip, _, hol⟩ := combineLanes_some p a4 state b9s out hcl
  obtain ⟨hblen, _⟩ := convertInputs_some p next_input b9s hcv
  refine ⟨?_, h25, b9s, hcv, hzip⟩
  rw [← hblen, ← hol, h25]

/-- Witness for C9 at the concrete all-ones input over the BN254 scalar
field with A4 instantiated at 9. -/
theorem apply_absorb_output_shape_witness :
    (List.replicate 25 (some (1 : ZMod FrP))).length = 25 ∧
    (List.replicate 25 (9 : ZMod FrP)).length = 25 ∧
    ∃ b9s : List (ZMod FrP), convertInputs FrP (List.replicate 25 (some 1)) = some b9s ∧
      List.replicate 25 (9 : ZMod FrP) =
        List.zipWith (fun s b => s + b * 9) (List.replicate 25 0) b9s :=
  apply_absorb_output_shape FrP 9 (List.replicate 25 0) (List.replicate 25 (some 1))
    (List.replicate 25 9) (by decide)

end ZkEvm
